/-
Verification of the per-conversation session actor of the cf_ai_agent
repository (Durable Object `Chat` in the chat module): history pruning,
token-bucket rate limiting, job scheduling and the alarm handler.

Shallow embedding conventions:
* timestamps (JS `Date.now()` milliseconds) are `Int`;
* JS numbers inside the token bucket are `ℚ` (the refill interval is the
  exact division `60000 / ratePerMin`, and `Math.floor` is `Int.floor`);
* `String.length` stands in for JS `.length` (code-unit counting differs
  only on astral-plane characters, which no claim depends on);
* Durable Object storage is a record `DOState`; `storage.setAlarm`
  replaces the single armed alarm, modelled by the `alarm` field;
* the model-inference client (`streamText` + collecting the stream) is an
  oracle parameter `invoke` from the message list sent to the model to the
  assistant text (or to `Except Unit String` where a thrown rejection
  matters).
-/
import Mathlib

namespace CfAgent

/-- A history message as stored under the `history` key:
`{ role, content, ts }`. -/
structure HistoryMessage where
  role : String
  content : String
  ts : Int
deriving DecidableEq, Repr

/-- A scheduled job as stored under the `jobs` key:
`{ id, runAt, prompt }`. -/
structure Job where
  id : String
  runAt : Int
  prompt : String
deriving DecidableEq, Repr

/-- `MAX_MESSAGES` -/
def MAX_MESSAGES : Nat := 300
/-- `MAX_AGE_MS = 14 * 24 * 60 * 60 * 1000` -/
def MAX_AGE_MS : Int := 14 * 24 * 60 * 60 * 1000
/-- `MAX_HISTORY_CHARS` -/
def MAX_HISTORY_CHARS : Nat := 120000
/-- `DAILY_MS = 24 * 60 * 60 * 1000` -/
def DAILY_MS : Int := 24 * 60 * 60 * 1000
/-- `MIN_ALARM_MS` -/
def MIN_ALARM_MS : Int := 30000

/-- `pruneByAge`: keep messages with `m.ts >= now - MAX_AGE_MS`. -/
def pruneByAge (messages : List HistoryMessage) (now : Int) : List HistoryMessage :=
  messages.filter (fun m => now - MAX_AGE_MS ≤ m.ts)

/-- `pruneByCount`: keep the last `MAX_MESSAGES` messages
(`messages.slice(messages.length - MAX_MESSAGES)`). -/
def pruneByCount (messages : List HistoryMessage) : List HistoryMessage :=
  if messages.length ≤ MAX_MESSAGES then messages
  else messages.drop (messages.length - MAX_MESSAGES)

/-- The loop body of `pruneByChars`, walking the reversed message list:
push messages (newest first) while the running character total stays within
`MAX_HISTORY_CHARS`; `break` on the first message that would exceed it. -/
def pruneByCharsAux : List HistoryMessage → Nat → List HistoryMessage
  | [], _ => []
  | m :: ms, total =>
    if MAX_HISTORY_CHARS < total + m.content.length then []
    else m :: pruneByCharsAux ms (total + m.content.length)

/-- `pruneByChars`: scan from the newest message backwards, keeping a
suffix whose total content length fits in `MAX_HISTORY_CHARS`, then
restore original order (`out.reverse()`). -/
def pruneByChars (messages : List HistoryMessage) : List HistoryMessage :=
  (pruneByCharsAux messages.reverse 0).reverse

/-- The pruning pipeline of `saveHistory` (the pure part, before the
storage put): age, then count, then size. -/
def saveHistoryPure (history : List HistoryMessage) (now : Int) : List HistoryMessage :=
  pruneByChars (pruneByCount (pruneByAge history now))

/-- Total content length of a history. -/
def charSum (messages : List HistoryMessage) : Nat :=
  (messages.map (fun m => m.content.length)).sum

/-- A persisted token bucket `{ tokens, last }`. `last` is a JS number
(`Date.now()` value), modelled as `ℚ` so that the fractional refill
interval `60000 / ratePerMin` divides exactly. -/
structure Bucket where
  tokens : Int
  last : ℚ
deriving DecidableEq, Repr

/-- The body of `tokenBucket` after the bucket has been loaded (or lazily
created as `{ tokens: burst, last: now }`): lazy refill by whole elapsed
intervals, then admit-and-decrement or deny. The returned bucket is written
back to storage in either case. -/
def tokenBucketStep (b : Bucket) (now : ℚ) (ratePerMin burst : Int) : Bool × Bucket :=
  let refill : ℚ := 60000 / (ratePerMin : ℚ)
  let elapsed : ℚ := now - b.last
  let add : Int := ⌊elapsed / refill⌋
  let b1 : Bucket :=
    if 0 < add then { tokens := min (b.tokens + add) burst, last := now } else b
  if b1.tokens ≤ 0 then (false, b1)
  else (true, { b1 with tokens := b1.tokens - 1 })

/-- Storage lookup for key `k` in the modelled key/value pairs. -/
def getBucket (bs : List (String × Bucket)) (k : String) : Option Bucket :=
  (bs.find? (fun p => p.1 = k)).map (fun p => p.2)

/-- Storage `put` for key `k`: overwrite any previous binding. -/
def putBucket (bs : List (String × Bucket)) (k : String) (b : Bucket) :
    List (String × Bucket) :=
  (k, b) :: bs.filter (fun p => p.1 ≠ k)

/-- `tokenBucket(state, key, ratePerMin, burst)`: load or create the bucket
under `tb:key`, run one admission step, persist the bucket. -/
def tokenBucket (bs : List (String × Bucket)) (key : String) (now : ℚ)
    (ratePerMin burst : Int) : Bool × List (String × Bucket) :=
  let storageKey := "tb:" ++ key
  let b0 := (getBucket bs storageKey).getD { tokens := burst, last := now }
  let r := tokenBucketStep b0 now ratePerMin burst
  (r.1, putBucket bs storageKey r.2)

/-- `n` consecutive admission checks against one bucket at a single
instant, collecting the verdicts and threading the persisted bucket. -/
def runAdmissions : Bucket → ℚ → Int → Int → Nat → List Bool × Bucket
  | b, _, _, _, 0 => ([], b)
  | b, now, rate, burst, n + 1 =>
    let r := tokenBucketStep b now rate burst
    let rest := runAdmissions r.2 now rate burst n
    (r.1 :: rest.1, rest.2)

/-- The Durable Object's persisted state, plus the single armed alarm
(`storage.setAlarm` replaces the previous alarm). `nextPruneAt = none`
models the key being absent. -/
structure DOState where
  history : List HistoryMessage
  jobs : List Job
  nextPruneAt : Option Int
  alarm : Option Int
  buckets : List (String × Bucket)
deriving DecidableEq, Repr

/-- `saveHistory(state, history, scheduleNextPrune)`: prune and store the
history; when `scheduleNextPrune` is set, advance `nextPruneAt` to
`now + DAILY_MS` and re-arm the alarm to it whenever the stored value is
missing or earlier. -/
def saveHistoryOp (s : DOState) (history : List HistoryMessage)
    (scheduleNextPrune : Bool) (now : Int) : DOState :=
  let s1 := { s with history := saveHistoryPure history now }
  if scheduleNextPrune then
    let next := now + DAILY_MS
    match s.nextPruneAt with
    | none => { s1 with nextPruneAt := some next, alarm := some next }
    | some t =>
      if t < next then { s1 with nextPruneAt := some next, alarm := some next }
      else s1
  else s1

/-- `assistant || "ok"`: the fallback reply for an empty stream. -/
def orOk (a : String) : String := if a = "" then "ok" else a

/-- The `(role, content)` pairs sent to the model for a history. -/
def toMessages (h : List HistoryMessage) : List (String × String) :=
  h.map (fun m => (m.role, m.content))

/-- Outcome of a `POST /schedule` request. -/
inductive ScheduleResp where
  | rateLimited
  | invalid
  | immediate
  | scheduled (id : String)
deriving DecidableEq, Repr

/-- JS `Math.round` on `delta / 1000` for a nonnegative `delta`
(round half up), then `Math.max(1, ·)`. -/
def roundSecs (delta : Int) : Int := max 1 ((delta + 500).fdiv 1000)

/-- The synthetic marker turn content for a deferred job. -/
def scheduledNote (delta : Int) : String :=
  "scheduled message: A summary of this chat will be sent in " ++
    toString (roundSecs delta) ++ " seconds :)"

/-- The `POST /schedule` handler. `runAt = none` models a body whose
`Number(body.runAt)` is not finite; `uuid` stands for `crypto.randomUUID()`.
`invoke` is the model-inference oracle. -/
def scheduleRequest (s : DOState) (key : String) (runAt : Option Int)
    (prompt : String) (now : Int)
    (invoke : List (String × String) → String) (uuid : String) :
    DOState × ScheduleResp :=
  let adm := tokenBucket s.buckets key (now : ℚ) 12 20
  let s0 := { s with buckets := adm.2 }
  if !adm.1 then (s0, .rateLimited)
  else
    match runAt with
    | none => (s0, .invalid)
    | some r =>
      if prompt = "" then (s0, .invalid)
      else
        let delta := r - now
        if delta < MIN_ALARM_MS then
          let assistant := orOk (invoke (toMessages s0.history ++ [("user", prompt)]))
          let h := s0.history ++ [{ role := "assistant", content := assistant, ts := now }]
          (saveHistoryOp s0 h true now, .immediate)
        else
          let s1 := { s0 with jobs := s0.jobs ++ [{ id := uuid, runAt := r, prompt := prompt }],
                              alarm := some r }
          let h := s1.history ++
            [{ role := "assistant", content := scheduledNote delta, ts := now }]
          (saveHistoryOp s1 h true now, .scheduled uuid)

/-- Outcome of a chat-turn `POST` request. `ok` carries the reply and the
history array included in the response body. -/
inductive ChatResp where
  | rateLimited
  | missingText
  | tooLong
  | ok (reply : String) (history : List HistoryMessage)
deriving DecidableEq, Repr

/-- The chat-turn `POST` handler: admission, validation, append the user
turn, invoke the model on the full history, append the assistant turn,
persist via `saveHistory(..., true)`, and answer with the reply and the
(in-memory, pre-prune) `history` array. -/
def chatRequest (s : DOState) (key : String) (text : String) (now : Int)
    (invoke : List (String × String) → String) : DOState × ChatResp :=
  let adm := tokenBucket s.buckets key (now : ℚ) 30 45
  let s0 := { s with buckets := adm.2 }
  if !adm.1 then (s0, .rateLimited)
  else if text = "" then (s0, .missingText)
  else if 4000 < text.length then (s0, .tooLong)
  else
    let h1 := s0.history ++ [{ role := "user", content := text, ts := now }]
    let assistant := orOk (invoke (toMessages h1))
    let h2 := h1 ++ [{ role := "assistant", content := assistant, ts := now }]
    (saveHistoryOp s0 h2 true now, .ok assistant h2)

/-- The due partition of the job queue: `jobs.filter(j => j.runAt <= now)`. -/
def dueJobs (jobs : List Job) (now : Int) : List Job :=
  jobs.filter (fun j => j.runAt ≤ now)

/-- The future partition of the job queue: `jobs.filter(j => j.runAt > now)`. -/
def futureJobs (jobs : List Job) (now : Int) : List Job :=
  jobs.filter (fun j => now < j.runAt)

/-- The `for (const job of due)` loop of `alarm()`: each iteration invokes
the model on the current (growing) history plus the job's prompt as the
final user message, and appends the assistant turn. -/
def runDueJobs (history : List HistoryMessage) (due : List Job) (now : Int)
    (invoke : List (String × String) → String) : List HistoryMessage :=
  match due with
  | [] => history
  | j :: rest =>
    let a := orOk (invoke (toMessages history ++ [("user", j.prompt)]))
    runDueJobs (history ++ [{ role := "assistant", content := a, ts := now }]) rest now invoke

/-- `Math.min(...future.map(j => j.runAt))` for a nonempty `future`. -/
def minRunAt : List Job → Int
  | [] => 0
  | j :: rest => (rest.map Job.runAt).foldl min j.runAt

/-- The tail of `alarm()` after the due-job loop: the maintenance check and
the re-arming branches (`nextPruneAt ?? 0`; `nextPruneAt || Infinity` in the
minimum when re-arming for future jobs). Note the job queue is rewritten to
`future` only in the middle branch. -/
def alarmTail (s : DOState) (now : Int) : DOState :=
  let future := futureJobs s.jobs now
  let np := s.nextPruneAt.getD 0
  if np ≤ now then
    { s with history := saveHistoryPure s.history now,
             nextPruneAt := some (now + DAILY_MS), alarm := some (now + DAILY_MS) }
  else if !future.isEmpty then
    let next := if np = 0 then minRunAt future else min np (minRunAt future)
    { s with jobs := future, alarm := some next }
  else if np ≠ 0 then
    { s with alarm := some np }
  else
    { s with nextPruneAt := some (now + DAILY_MS), alarm := some (now + DAILY_MS) }

/-- The `alarm()` handler: partition the queue, execute due jobs (appending
their assistant turns and persisting via `saveHistory(..., false)`), then
run the maintenance/re-arm tail. -/
def alarmStep (s : DOState) (now : Int)
    (invoke : List (String × String) → String) : DOState :=
  let due := dueJobs s.jobs now
  let s1 :=
    if due.isEmpty then s
    else { s with history := saveHistoryPure (runDueJobs s.history due now invoke) now }
  alarmTail s1 now

/-- The turns the due-job loop appends, listed in loop order: the turn for
job `j` is generated from the history as it stands when `j`'s iteration
runs (all previously appended turns included) plus `j`'s prompt. -/
def dueTurns (history : List HistoryMessage) (due : List Job) (now : Int)
    (invoke : List (String × String) → String) : List HistoryMessage :=
  match due with
  | [] => []
  | j :: rest =>
    let t : HistoryMessage :=
      { role := "assistant",
        content := orOk (invoke (toMessages history ++ [("user", j.prompt)])),
        ts := now }
    t :: dueTurns (history ++ [t]) rest now invoke

/-- The due-job loop with a fallible model oracle: `streamText`'s promise
rejecting inside the loop propagates out of `alarm()` (there is no
try/catch), so the loop either finishes or fails as a whole. -/
def runDueJobsE (history : List HistoryMessage) (due : List Job) (now : Int)
    (invoke : List (String × String) → Except Unit String) :
    Except Unit (List HistoryMessage) :=
  match due with
  | [] => .ok history
  | j :: rest =>
    match invoke (toMessages history ++ [("user", j.prompt)]) with
    | .error e => .error e
    | .ok a =>
      runDueJobsE (history ++ [{ role := "assistant", content := orOk a, ts := now }])
        rest now invoke

/-- `alarm()` with a fallible model oracle: a rejection inside the due-job
loop aborts the handler before any storage write (the history persist, the
queue rewrite and every `setAlarm` all come after the loop), so the actor
state is unchanged and the error propagates to the platform. -/
def alarmStepE (s : DOState) (now : Int)
    (invoke : List (String × String) → Except Unit String) :
    Except Unit DOState :=
  let due := dueJobs s.jobs now
  if due.isEmpty then .ok (alarmTail s now)
  else
    match runDueJobsE s.history due now invoke with
    | .error e => .error e
    | .ok h => .ok (alarmTail { s with history := saveHistoryPure h now } now)

/-- A fresh actor: no history, no jobs, no `nextPruneAt`, no armed alarm,
no buckets. -/
def freshState : DOState := { history := [], jobs := [], nextPruneAt := none,
                              alarm := none, buckets := [] }

/-- A job already due at the firings considered below. -/
def jobC3 : Job := { id := "j", runAt := 50, prompt := "p" }

/-- Actor state with `jobC3` pending and maintenance already due
(`nextPruneAt = 40`). -/
def stateC3 : DOState := { history := [], jobs := [jobC3], nextPruneAt := some 40,
                           alarm := none, buckets := [] }

/-- A constant model oracle. -/
def invokeConst : List (String × String) → String := fun _ => "reply"

/-- A model oracle that echoes the final user message, making the
execution order of jobs visible in the appended history. -/
def invokeEcho : List (String × String) → String := fun ms =>
  (ms.getLast?.map Prod.snd).getD ""

/-- A fallible model oracle that rejects exactly on prompt `"x"`. -/
def invokeFailFirst : List (String × String) → Except Unit String := fun ms =>
  if ms.getLast?.map Prod.snd = some "x" then .error () else .ok "r"

/-- Two jobs both already due, the first with the failing prompt. -/
def stateC4 : DOState :=
  { history := [],
    jobs := [{ id := "a", runAt := 50, prompt := "x" },
             { id := "b", runAt := 60, prompt := "y" }],
    nextPruneAt := some 1000000000, alarm := none, buckets := [] }

/-- Two jobs both due at the firing, queued with the later due time first. -/
def stateC5 : DOState :=
  { history := [],
    jobs := [{ id := "a", runAt := 100, prompt := "x" },
             { id := "b", runAt := 50, prompt := "y" }],
    nextPruneAt := some 1000000000, alarm := none, buckets := [] }

/-- A state whose single history turn is 28 days old by the time of the
next chat request. -/
def stateC7 : DOState := { history := [{ role := "user", content := "old", ts := 0 }],
                           jobs := [], nextPruneAt := none, alarm := none, buckets := [] }

end CfAgent

deriving instance DecidableEq for Except

namespace CfAgent

/-! ### Lemmas and claim theorems -/

/-! ### Pruning lemmas -/

theorem charSum_cons (m : HistoryMessage) (l : List HistoryMessage) :
    charSum (m :: l) = m.content.length + charSum l := by
  simp [charSum]

theorem charSum_reverse (l : List HistoryMessage) : charSum l.reverse = charSum l := by
  simp [charSum, List.sum_reverse]

theorem pruneByCharsAux_charSum (l : List HistoryMessage) :
    ∀ t : Nat, t ≤ MAX_HISTORY_CHARS →
      charSum (pruneByCharsAux l t) + t ≤ MAX_HISTORY_CHARS := by
  induction l with
  | nil =>
    intro t ht
    simpa [pruneByCharsAux, charSum] using ht
  | cons m ms ih =>
    intro t ht
    simp only [pruneByCharsAux]
    split
    · simpa [charSum] using ht
    · rename_i hle
      have h1 : t + m.content.length ≤ MAX_HISTORY_CHARS := not_lt.mp hle
      have h2 := ih (t + m.content.length) h1
      rw [charSum_cons]
      omega

theorem pruneByChars_charSum (l : List HistoryMessage) :
    charSum (pruneByChars l) ≤ MAX_HISTORY_CHARS := by
  unfold pruneByChars
  rw [charSum_reverse]
  have := pruneByCharsAux_charSum l.reverse 0 (by norm_num [MAX_HISTORY_CHARS])
  omega

theorem pruneByCharsAux_length (l : List HistoryMessage) :
    ∀ t : Nat, (pruneByCharsAux l t).length ≤ l.length := by
  induction l with
  | nil => intro t; simp [pruneByCharsAux]
  | cons m ms ih =>
    intro t
    simp only [pruneByCharsAux]
    split
    · simp
    · simpa using ih (t + m.content.length)

theorem pruneByChars_length (l : List HistoryMessage) :
    (pruneByChars l).length ≤ l.length := by
  unfold pruneByChars
  simpa using pruneByCharsAux_length l.reverse 0

theorem pruneByCharsAux_mem (l : List HistoryMessage) :
    ∀ (t : Nat) (m : HistoryMessage), m ∈ pruneByCharsAux l t → m ∈ l := by
  induction l with
  | nil => intro t m h; simp [pruneByCharsAux] at h
  | cons x xs ih =>
    intro t m h
    simp only [pruneByCharsAux] at h
    split at h
    · simp at h
    · rcases List.mem_cons.mp h with h1 | h2
      · exact h1 ▸ List.mem_cons_self _ _
      · exact List.mem_cons_of_mem _ (ih _ m h2)

theorem pruneByChars_mem {l : List HistoryMessage} {m : HistoryMessage}
    (h : m ∈ pruneByChars l) : m ∈ l := by
  unfold pruneByChars at h
  rw [List.mem_reverse] at h
  have := pruneByCharsAux_mem l.reverse 0 m h
  exact List.mem_reverse.mp this

theorem pruneByCount_length (l : List HistoryMessage) :
    (pruneByCount l).length ≤ MAX_MESSAGES := by
  unfold pruneByCount
  split
  · assumption
  · rename_i h
    simp only [List.length_drop]
    omega

theorem pruneByCount_length_le (l : List HistoryMessage) :
    (pruneByCount l).length ≤ l.length := by
  unfold pruneByCount
  split
  · exact le_rfl
  · simp only [List.length_drop]; omega

theorem pruneByCount_mem {l : List HistoryMessage} {m : HistoryMessage}
    (h : m ∈ pruneByCount l) : m ∈ l := by
  unfold pruneByCount at h
  split at h
  · exact h
  · exact (List.drop_sublist _ _).mem h

theorem pruneByAge_mem {l : List HistoryMessage} {now : Int} {m : HistoryMessage}
    (h : m ∈ pruneByAge l now) : m ∈ l ∧ now - MAX_AGE_MS ≤ m.ts := by
  unfold pruneByAge at h
  rw [List.mem_filter] at h
  exact ⟨h.1, by simpa using h.2⟩

theorem pruneByAge_length (l : List HistoryMessage) (now : Int) :
    (pruneByAge l now).length ≤ l.length :=
  List.length_filter_le _ _

/-- C2: every persist of history stores a list obtained by applying the age,
count and size prunes in that order; the stored list has at most 300 turns,
every stored turn is at most 14 days old, the total content length is at
most 120,000, and the stored list has no more turns than the input. -/
theorem C2_prune_invariants (history : List HistoryMessage) (now : Int) :
    saveHistoryPure history now
        = pruneByChars (pruneByCount (pruneByAge history now)) ∧
    (saveHistoryPure history now).length ≤ MAX_MESSAGES ∧
    (∀ m ∈ saveHistoryPure history now, now - MAX_AGE_MS ≤ m.ts) ∧
    charSum (saveHistoryPure history now) ≤ MAX_HISTORY_CHARS ∧
    (saveHistoryPure history now).length ≤ history.length := by
  refine ⟨rfl, ?_, ?_, ?_, ?_⟩
  · exact le_trans (pruneByChars_length _) (pruneByCount_length _)
  · intro m hm
    have h1 := pruneByChars_mem hm
    have h2 := pruneByCount_mem h1
    exact (pruneByAge_mem h2).2
  · exact pruneByChars_charSum _
  · exact le_trans (pruneByChars_length _)
      (le_trans (pruneByCount_length_le _) (pruneByAge_length _ _))

/-- Concrete instantiation of the C2 invariants. -/
theorem C2_prune_invariants_witness :
    saveHistoryPure [{ role := "user", content := "hi", ts := 5 }] 5
        = pruneByChars (pruneByCount (pruneByAge
            [{ role := "user", content := "hi", ts := 5 }] 5)) ∧
    (saveHistoryPure [{ role := "user", content := "hi", ts := 5 }] 5).length
        ≤ MAX_MESSAGES ∧
    (∀ m ∈ saveHistoryPure [{ role := "user", content := "hi", ts := 5 }] 5,
        5 - MAX_AGE_MS ≤ m.ts) ∧
    charSum (saveHistoryPure [{ role := "user", content := "hi", ts := 5 }] 5)
        ≤ MAX_HISTORY_CHARS ∧
    (saveHistoryPure [{ role := "user", content := "hi", ts := 5 }] 5).length
        ≤ [({ role := "user", content := "hi", ts := 5 } : HistoryMessage)].length :=
  C2_prune_invariants [{ role := "user", content := "hi", ts := 5 }] 5

/-! ### The size prune versus an oversized final turn (C10) -/

theorem pruneByAge_append_fresh (l : List HistoryMessage) (now : Int)
    (t : HistoryMessage) (h : now - MAX_AGE_MS ≤ t.ts) :
    pruneByAge (l ++ [t]) now = pruneByAge l now ++ [t] := by
  unfold pruneByAge
  rw [List.filter_append]
  simp
  omega

theorem pruneByCount_append_last (l : List HistoryMessage) (t : HistoryMessage) :
    ∃ l' : List HistoryMessage, pruneByCount (l ++ [t]) = l' ++ [t] := by
  unfold pruneByCount
  split
  · exact ⟨l, rfl⟩
  · rename_i h
    have hlen : (l ++ [t]).length = l.length + 1 := by simp
    rw [hlen]
    refine ⟨l.drop (l.length + 1 - MAX_MESSAGES), ?_⟩
    rw [List.drop_append_eq_append_drop]
    have hz : l.length + 1 - MAX_MESSAGES - l.length = 0 := by
      simp only [MAX_MESSAGES]; omega
    rw [hz]
    simp

theorem pruneByChars_append_oversized (l : List HistoryMessage)
    (t : HistoryMessage) (h : MAX_HISTORY_CHARS < t.content.length) :
    pruneByChars (l ++ [t]) = [] := by
  unfold pruneByChars
  rw [List.reverse_append]
  simp only [List.reverse_singleton, List.singleton_append, pruneByCharsAux]
  rw [if_pos (by simpa using h)]
  rfl

/-- C10: a turn whose content exceeds 120,000 characters makes the size
prune retain nothing, so persisting right after appending such a turn
stores an empty history. -/
theorem C10_oversized_turn_clears_history (history : List HistoryMessage)
    (now : Int) (role content : String)
    (h : MAX_HISTORY_CHARS < content.length) :
    saveHistoryPure (history ++ [{ role := role, content := content, ts := now }]) now
      = [] := by
  unfold saveHistoryPure
  rw [pruneByAge_append_fresh _ _ _ (by simp; norm_num [MAX_AGE_MS])]
  obtain ⟨l', hl'⟩ := pruneByCount_append_last (pruneByAge history now)
      { role := role, content := content, ts := now }
  rw [hl']
  exact pruneByChars_append_oversized l' _ h

/-- Concrete instantiation of C10 with a 120,001-character turn. -/
theorem C10_oversized_turn_clears_history_witness :
    MAX_HISTORY_CHARS
        < (String.mk (List.replicate (MAX_HISTORY_CHARS + 1) 'a')).length ∧
    saveHistoryPure
        ([{ role := "user", content := "hi", ts := 5 }] ++
          [{ role := "assistant",
             content := String.mk (List.replicate (MAX_HISTORY_CHARS + 1) 'a'),
             ts := 5 }]) 5 = [] := by
  have h : MAX_HISTORY_CHARS
      < (String.mk (List.replicate (MAX_HISTORY_CHARS + 1) 'a')).length := by
    simp [String.length]
  exact ⟨h, C10_oversized_turn_clears_history [{ role := "user", content := "hi", ts := 5 }]
    5 "assistant" (String.mk (List.replicate (MAX_HISTORY_CHARS + 1) 'a')) h⟩

/-! ### Token-bucket evaluation lemmas -/

theorem tokenBucketStep_same_grant (b : Bucket) (rate burst : Int)
    (h : 0 < b.tokens) :
    tokenBucketStep b b.last rate burst = (true, { b with tokens := b.tokens - 1 }) := by
  unfold tokenBucketStep
  simp only [sub_self, zero_div, Int.floor_zero, lt_irrefl, if_false]
  rw [if_neg (not_le.mpr h)]

theorem tokenBucketStep_same_deny (b : Bucket) (rate burst : Int)
    (h : b.tokens ≤ 0) :
    tokenBucketStep b b.last rate burst = (false, b) := by
  unfold tokenBucketStep
  simp only [sub_self, zero_div, Int.floor_zero, lt_irrefl, if_false]
  rw [if_pos h]

theorem tokenBucketStep_refill (now : ℚ) (rate burst : Int)
    (hr : 0 < rate) (hb : 1 ≤ burst) :
    tokenBucketStep { tokens := 0, last := now } (now + 60000 / (rate : ℚ)) rate burst
      = (true, { tokens := 0, last := now + 60000 / (rate : ℚ) }) := by
  have hrq : (0 : ℚ) < 60000 / (rate : ℚ) := by
    apply div_pos (by norm_num)
    exact_mod_cast hr
  unfold tokenBucketStep
  simp only [add_sub_cancel_left]
  rw [div_self (ne_of_gt hrq)]
  norm_num
  rw [if_neg (by omega : ¬ burst ≤ 0), min_eq_left hb]
  norm_num

theorem tokenBucket_empty (key : String) (now : ℚ) (rate burst : Int)
    (hb : 0 < burst) :
    tokenBucket [] key now rate burst
      = (true, [("tb:" ++ key, { tokens := burst - 1, last := now })]) := by
  unfold tokenBucket getBucket putBucket
  simp [tokenBucketStep_same_grant { tokens := burst, last := now } rate burst hb]

theorem runAdmissions_same_instant (now : ℚ) (rate burst : Int) :
    ∀ (n : Nat) (tk : Int), (n : Int) ≤ tk →
      runAdmissions { tokens := tk, last := now } now rate burst n
        = (List.replicate n true, { tokens := tk - n, last := now }) := by
  intro n
  induction n with
  | zero => intro tk _; simp [runAdmissions]
  | succ n ih =>
    intro tk hn
    have htk : 0 < tk := by
      have : ((n : Int) + 1) ≤ tk := by exact_mod_cast hn
      omega
    simp only [runAdmissions,
      tokenBucketStep_same_grant { tokens := tk, last := now } rate burst htk]
    rw [ih (tk - 1) (by push_cast at hn ⊢; omega)]
    simp [List.replicate_succ, Bucket.mk.injEq]
    ring

/-- C6: from a fresh bucket, `burst` admission checks at one instant all
succeed, the next check at that instant is denied, exactly one more check
succeeds once one refill interval (`60000 / ratePerMin` ms) has elapsed,
and the check after that (at the same instant) is denied again. -/
theorem C6_token_bucket_burst_and_refill (rate burst : Int) (now : ℚ)
    (hr : 0 < rate) (hb : 1 ≤ burst) :
    (runAdmissions { tokens := burst, last := now } now rate burst burst.toNat).1
        = List.replicate burst.toNat true ∧
    (tokenBucketStep
        (runAdmissions { tokens := burst, last := now } now rate burst burst.toNat).2
        now rate burst).1 = false ∧
    (tokenBucketStep
        (tokenBucketStep
          (runAdmissions { tokens := burst, last := now } now rate burst burst.toNat).2
          now rate burst).2
        (now + 60000 / (rate : ℚ)) rate burst).1 = true ∧
    (tokenBucketStep
        (tokenBucketStep
          (tokenBucketStep
            (runAdmissions { tokens := burst, last := now } now rate burst burst.toNat).2
            now rate burst).2
          (now + 60000 / (rate : ℚ)) rate burst).2
        (now + 60000 / (rate : ℚ)) rate burst).1 = false := by
  have hbn : ((burst.toNat : Int)) = burst := Int.toNat_of_nonneg (by omega)
  have hrun := runAdmissions_same_instant now rate burst burst.toNat burst
    (le_of_eq hbn)
  have hzero : burst - (burst.toNat : Int) = 0 := by omega
  rw [hzero] at hrun
  rw [hrun]
  have hdeny := tokenBucketStep_same_deny { tokens := 0, last := now } rate burst
    (le_refl 0)
  rw [hdeny]
  have href := tokenBucketStep_refill now rate burst hr hb
  rw [href]
  have hdeny2 := tokenBucketStep_same_deny
    { tokens := 0, last := now + 60000 / (rate : ℚ) } rate burst (le_refl 0)
  rw [hdeny2]
  exact ⟨rfl, rfl, rfl, rfl⟩

/-- Concrete instantiation of C6 at the chat policy (30 per minute,
burst 45) from instant 0. -/
theorem C6_token_bucket_burst_and_refill_witness :
    (0 : Int) < 30 ∧ (1 : Int) ≤ 45 ∧
    ((runAdmissions { tokens := 45, last := 0 } 0 30 45 (Int.toNat 45)).1
        = List.replicate (Int.toNat 45) true ∧
    (tokenBucketStep
        (runAdmissions { tokens := 45, last := 0 } 0 30 45 (Int.toNat 45)).2
        0 30 45).1 = false ∧
    (tokenBucketStep
        (tokenBucketStep
          (runAdmissions { tokens := 45, last := 0 } 0 30 45 (Int.toNat 45)).2
          0 30 45).2
        (0 + 60000 / ((30 : Int) : ℚ)) 30 45).1 = true ∧
    (tokenBucketStep
        (tokenBucketStep
          (tokenBucketStep
            (runAdmissions { tokens := 45, last := 0 } 0 30 45 (Int.toNat 45)).2
            0 30 45).2
          (0 + 60000 / ((30 : Int) : ℚ)) 30 45).2
        (0 + 60000 / ((30 : Int) : ℚ)) 30 45).1 = false) :=
  ⟨by norm_num, by norm_num,
    C6_token_bucket_burst_and_refill 30 45 0 (by norm_num) (by norm_num)⟩

/-! ### C1: the armed timer versus the earliest due time -/

/-- C1 fails on the code: scheduling a job 60 s out on a fresh actor first
arms the alarm for the job's due time, but the subsequent history persist
(with `scheduleNextPrune` set) overwrites the single alarm slot with
`now + DAILY_MS`. The armed wake-up is a full day out while a job due at
60000 ms is pending, so the armed time is not the minimum of the
maintenance due time and the pending jobs' due times. -/
theorem C1_alarm_overwritten_by_prune_arm :
    (scheduleRequest freshState "k" (some 60000) "p" 0 invokeConst "jid").2
        = ScheduleResp.scheduled "jid" ∧
    ((scheduleRequest freshState "k" (some 60000) "p" 0 invokeConst "jid").1.jobs.map
        Job.runAt) = [60000] ∧
    (scheduleRequest freshState "k" (some 60000) "p" 0 invokeConst "jid").1.nextPruneAt
        = some DAILY_MS ∧
    (scheduleRequest freshState "k" (some 60000) "p" 0 invokeConst "jid").1.alarm
        = some DAILY_MS ∧
    (scheduleRequest freshState "k" (some 60000) "p" 0 invokeConst "jid").1.alarm
        ≠ some (min DAILY_MS 60000) := by
  have h := tokenBucket_empty "k" ((0 : Int) : ℚ) 12 20 (by norm_num)
  have hp : ¬ (("p" : String) = "") := by decide
  simp only [scheduleRequest, freshState, invokeConst, h]
  norm_num [MIN_ALARM_MS, saveHistoryOp, DAILY_MS, hp]

/-! ### C3: due jobs must be removed once executed -/

/-- C3 fails on the code: when a firing also runs maintenance
(`now ≥ nextPruneAt`), the handler never rewrites the `jobs` key — the
rewrite to `future` happens only in the not-yet-maintenance branch. The
fired job stays persisted, and the next firing (a day later) runs the same
job again, appending a second assistant turn for it. -/
theorem C3_fired_job_left_in_queue :
    (alarmStep stateC3 100 invokeConst).jobs = [jobC3] ∧
    (alarmStep stateC3 100 invokeConst).history
        = [{ role := "assistant", content := "reply", ts := 100 }] ∧
    (alarmStep (alarmStep stateC3 100 invokeConst) (100 + DAILY_MS) invokeConst).history
        = [{ role := "assistant", content := "reply", ts := 100 },
           { role := "assistant", content := "reply", ts := 100 + DAILY_MS }] ∧
    (alarmStep (alarmStep stateC3 100 invokeConst) (100 + DAILY_MS) invokeConst).jobs
        = [jobC3] := by decide

/-! ### C4: per-job failure isolation -/

/-- C4 fails on the code: the due-job loop has no try/catch, so a rejected
invocation for the first due job aborts the whole `alarm()` handler before
any storage write. The second due job (whose invocation would succeed) is
not processed, no job is dropped and no re-arm happens in that firing. -/
theorem C4_failed_job_aborts_whole_firing :
    dueJobs stateC4.jobs 100
        = [{ id := "a", runAt := 50, prompt := "x" },
           { id := "b", runAt := 60, prompt := "y" }] ∧
    invokeFailFirst [("user", "y")] = .ok "r" ∧
    alarmStepE stateC4 100 invokeFailFirst = .error () := by decide

/-! ### C5: execution order of due jobs -/

/-- C5 as stated is false: with the queue holding a job due at 100 before a
job due at 50, the firing at 100 executes them in queue order — the echoed
contents are `["x", "y"]`, not the ascending-due-time order `["y", "x"]`. -/
theorem C5_counterexample_insertion_order :
    stateC5.jobs.map Job.runAt = [100, 50] ∧
    (alarmStep stateC5 100 invokeEcho).history.map HistoryMessage.content
        = ["x", "y"] ∧
    ¬ (alarmStep stateC5 100 invokeEcho).history.map HistoryMessage.content
        = ["y", "x"] := by decide

theorem runDueJobs_eq_append (now : Int)
    (invoke : List (String × String) → String) :
    ∀ (due : List Job) (h : List HistoryMessage),
      runDueJobs h due now invoke = h ++ dueTurns h due now invoke := by
  intro due
  induction due with
  | nil => intro h; simp [runDueJobs, dueTurns]
  | cons j rest ih =>
    intro h
    simp only [runDueJobs, dueTurns]
    rw [ih]
    simp

theorem dueTurns_length (now : Int) (invoke : List (String × String) → String) :
    ∀ (due : List Job) (h : List HistoryMessage),
      (dueTurns h due now invoke).length = due.length := by
  intro due
  induction due with
  | nil => intro h; simp [dueTurns]
  | cons j rest ih => intro h; simp [dueTurns, ih]

/-! ### C7: the response history versus the persisted history -/

theorem saveHistoryOp_history (s : DOState) (h : List HistoryMessage)
    (b : Bool) (now : Int) :
    (saveHistoryOp s h b now).history = saveHistoryPure h now := by
  unfold saveHistoryOp
  split
  · split
    · simp
    · simp [apply_ite DOState.history]
  · simp

theorem saveHistoryOp_jobs (s : DOState) (h : List HistoryMessage)
    (b : Bool) (now : Int) :
    (saveHistoryOp s h b now).jobs = s.jobs := by
  unfold saveHistoryOp
  split
  · split
    · simp
    · simp [apply_ite DOState.jobs]
  · simp

/-- C7 as stated is false: a chat turn on a history holding a 28-day-old
turn returns a response whose `history` field still contains that turn,
while the history persisted by the same request has pruned it — the
response carries the in-memory pre-prune array, not the stored result. -/
theorem C7_counterexample_response_keeps_pruned_turn :
    (chatRequest stateC7 "k" "hi" (2 * MAX_AGE_MS) invokeConst).2
        = ChatResp.ok "reply"
            [{ role := "user", content := "old", ts := 0 },
             { role := "user", content := "hi", ts := 2 * MAX_AGE_MS },
             { role := "assistant", content := "reply", ts := 2 * MAX_AGE_MS }] ∧
    (chatRequest stateC7 "k" "hi" (2 * MAX_AGE_MS) invokeConst).1.history
        = [{ role := "user", content := "hi", ts := 2 * MAX_AGE_MS },
           { role := "assistant", content := "reply", ts := 2 * MAX_AGE_MS }] ∧
    ¬ ([{ role := "user", content := "old", ts := 0 },
        { role := "user", content := "hi", ts := 2 * MAX_AGE_MS },
        { role := "assistant", content := "reply", ts := 2 * MAX_AGE_MS }]
        : List HistoryMessage)
        = [{ role := "user", content := "hi", ts := 2 * MAX_AGE_MS },
           { role := "assistant", content := "reply", ts := 2 * MAX_AGE_MS }] := by
  have h := tokenBucket_empty "k" ((2 * MAX_AGE_MS : Int) : ℚ) 30 45 (by norm_num)
  have h2 : ¬ (("hi" : String) = "") := by decide
  have h3 : ¬ (4000 < ("hi" : String).length) := by decide
  simp only [chatRequest, stateC7, invokeConst, h]
  norm_num [h2, h3, orOk, saveHistoryOp_history]
  decide

/-- C7 amended: a successful chat turn responds with the in-memory
appended history (user turn plus assistant turn on top of the loaded
history), while storage receives the pruned version of that same list; the
two coincide exactly when the prune removes nothing, and otherwise the
response may contain turns that storage has already pruned. -/
theorem C7_amended_response_is_preprune (s : DOState) (key text : String)
    (now : Int) (invoke : List (String × String) → String)
    (hadm : (tokenBucket s.buckets key (now : ℚ) 30 45).1 = true)
    (ht : ¬ text = "") (hl : text.length ≤ 4000) :
    (chatRequest s key text now invoke).2
      = ChatResp.ok
          (orOk (invoke (toMessages
            (s.history ++ [{ role := "user", content := text, ts := now }]))))
          ((s.history ++ [{ role := "user", content := text, ts := now }]) ++
            [{ role := "assistant",
               content := orOk (invoke (toMessages
                 (s.history ++ [{ role := "user", content := text, ts := now }]))),
               ts := now }]) ∧
    (chatRequest s key text now invoke).1.history
      = saveHistoryPure
          ((s.history ++ [{ role := "user", content := text, ts := now }]) ++
            [{ role := "assistant",
               content := orOk (invoke (toMessages
                 (s.history ++ [{ role := "user", content := text, ts := now }]))),
               ts := now }]) now := by
  simp only [chatRequest, hadm]
  simp [ht, not_lt.mpr hl, saveHistoryOp_history]

/-- Concrete instantiation of the amended C7 on a fresh actor. -/
theorem C7_amended_response_is_preprune_witness :
    (tokenBucket freshState.buckets "k" (((0 : Int)) : ℚ) 30 45).1 = true ∧
    ¬ ("hi" : String) = "" ∧
    ("hi" : String).length ≤ 4000 ∧
    ((chatRequest freshState "k" "hi" 0 invokeConst).2
      = ChatResp.ok
          (orOk (invokeConst (toMessages
            (freshState.history ++ [{ role := "user", content := "hi", ts := 0 }]))))
          ((freshState.history ++ [{ role := "user", content := "hi", ts := 0 }]) ++
            [{ role := "assistant",
               content := orOk (invokeConst (toMessages
                 (freshState.history ++ [{ role := "user", content := "hi", ts := 0 }]))),
               ts := 0 }]) ∧
    (chatRequest freshState "k" "hi" 0 invokeConst).1.history
      = saveHistoryPure
          ((freshState.history ++ [{ role := "user", content := "hi", ts := 0 }]) ++
            [{ role := "assistant",
               content := orOk (invokeConst (toMessages
                 (freshState.history ++ [{ role := "user", content := "hi", ts := 0 }]))),
               ts := 0 }]) 0) := by
  have hadm : (tokenBucket freshState.buckets "k" (((0 : Int)) : ℚ) 30 45).1 = true := by
    have := tokenBucket_empty "k" (((0 : Int)) : ℚ) 30 45 (by norm_num)
    simpa [freshState] using congrArg Prod.fst this
  have ht : ¬ ("hi" : String) = "" := by decide
  have hl : ("hi" : String).length ≤ 4000 := by decide
  exact ⟨hadm, ht, hl, C7_amended_response_is_preprune freshState "k" "hi" 0
    invokeConst hadm ht hl⟩

/-! ### C8: validation rejections and state change -/

/-- C8 as stated is false: a schedule request with an empty prompt is
rejected with a validation error, but the admission check that runs before
validation has already consumed a token and written the requester's bucket
back to storage — the bucket state after the rejection differs from before. -/
theorem C8_counterexample_bucket_written_on_validation_error :
    (scheduleRequest freshState "k" (some 60000) "" 0 invokeConst "jid").2
        = ScheduleResp.invalid ∧
    ¬ (scheduleRequest freshState "k" (some 60000) "" 0 invokeConst "jid").1.buckets
        = freshState.buckets := by
  have h := tokenBucket_empty "k" (((0 : Int)) : ℚ) 12 20 (by norm_num)
  simp only [scheduleRequest, freshState, h]
  norm_num

/-- C8 amended: a request rejected with a validation error — a schedule
request with a non-finite `runAt` or an empty prompt, or a chat turn with
missing or over-length text — leaves the history, the job queue, the
maintenance time and the armed alarm unchanged, but the requesting
client's token bucket is updated by the admission check that precedes
validation. -/
theorem C8_amended_only_bucket_changes (s : DOState) (key : String)
    (runAt : Option Int) (prompt text : String) (now : Int)
    (invoke : List (String × String) → String) (uuid : String)
    (hadmS : (tokenBucket s.buckets key (now : ℚ) 12 20).1 = true)
    (hadmC : (tokenBucket s.buckets key (now : ℚ) 30 45).1 = true)
    (hbadS : runAt = none ∨ prompt = "")
    (hbadC : text = "" ∨ 4000 < text.length) :
    ((scheduleRequest s key runAt prompt now invoke uuid).2 = ScheduleResp.invalid ∧
     (scheduleRequest s key runAt prompt now invoke uuid).1.history = s.history ∧
     (scheduleRequest s key runAt prompt now invoke uuid).1.jobs = s.jobs ∧
     (scheduleRequest s key runAt prompt now invoke uuid).1.nextPruneAt
         = s.nextPruneAt ∧
     (scheduleRequest s key runAt prompt now invoke uuid).1.alarm = s.alarm ∧
     (scheduleRequest s key runAt prompt now invoke uuid).1.buckets
         = (tokenBucket s.buckets key (now : ℚ) 12 20).2) ∧
    (((chatRequest s key text now invoke).2 = ChatResp.missingText ∨
      (chatRequest s key text now invoke).2 = ChatResp.tooLong) ∧
     (chatRequest s key text now invoke).1.history = s.history ∧
     (chatRequest s key text now invoke).1.jobs = s.jobs ∧
     (chatRequest s key text now invoke).1.nextPruneAt = s.nextPruneAt ∧
     (chatRequest s key text now invoke).1.alarm = s.alarm ∧
     (chatRequest s key text now invoke).1.buckets
         = (tokenBucket s.buckets key (now : ℚ) 30 45).2) := by
  constructor
  · rcases hbadS with hb | hb
    · subst hb
      simp [scheduleRequest, hadmS]
    · subst hb
      cases runAt <;> simp [scheduleRequest, hadmS]
  · rcases hbadC with hc | hc
    · subst hc
      simp [chatRequest, hadmC]
    · have hne : ¬ text = "" := by
        intro e
        rw [e] at hc
        exact absurd hc (by decide)
      simp [chatRequest, hadmC, hne, hc]

/-- Concrete instantiation of the amended C8: non-finite `runAt` on the
schedule path and missing text on the chat path, from a fresh actor. -/
theorem C8_amended_only_bucket_changes_witness :
    (tokenBucket freshState.buckets "k" (((0 : Int)) : ℚ) 12 20).1 = true ∧
    (tokenBucket freshState.buckets "k" (((0 : Int)) : ℚ) 30 45).1 = true ∧
    ((none : Option Int) = none ∨ ("p" : String) = "") ∧
    (("" : String) = "" ∨ 4000 < ("" : String).length) ∧
    (((scheduleRequest freshState "k" none "p" 0 invokeConst "jid").2
        = ScheduleResp.invalid ∧
     (scheduleRequest freshState "k" none "p" 0 invokeConst "jid").1.history
        = freshState.history ∧
     (scheduleRequest freshState "k" none "p" 0 invokeConst "jid").1.jobs
        = freshState.jobs ∧
     (scheduleRequest freshState "k" none "p" 0 invokeConst "jid").1.nextPruneAt
        = freshState.nextPruneAt ∧
     (scheduleRequest freshState "k" none "p" 0 invokeConst "jid").1.alarm
        = freshState.alarm ∧
     (scheduleRequest freshState "k" none "p" 0 invokeConst "jid").1.buckets
        = (tokenBucket freshState.buckets "k" (((0 : Int)) : ℚ) 12 20).2) ∧
    (((chatRequest freshState "k" "" 0 invokeConst).2 = ChatResp.missingText ∨
      (chatRequest freshState "k" "" 0 invokeConst).2 = ChatResp.tooLong) ∧
     (chatRequest freshState "k" "" 0 invokeConst).1.history = freshState.history ∧
     (chatRequest freshState "k" "" 0 invokeConst).1.jobs = freshState.jobs ∧
     (chatRequest freshState "k" "" 0 invokeConst).1.nextPruneAt
        = freshState.nextPruneAt ∧
     (chatRequest freshState "k" "" 0 invokeConst).1.alarm = freshState.alarm ∧
     (chatRequest freshState "k" "" 0 invokeConst).1.buckets
        = (tokenBucket freshState.buckets "k" (((0 : Int)) : ℚ) 30 45).2)) := by
  have hadmS : (tokenBucket freshState.buckets "k" (((0 : Int)) : ℚ) 12 20).1
      = true := by
    have := tokenBucket_empty "k" (((0 : Int)) : ℚ) 12 20 (by norm_num)
    simpa [freshState] using congrArg Prod.fst this
  have hadmC : (tokenBucket freshState.buckets "k" (((0 : Int)) : ℚ) 30 45).1
      = true := by
    have := tokenBucket_empty "k" (((0 : Int)) : ℚ) 30 45 (by norm_num)
    simpa [freshState] using congrArg Prod.fst this
  exact ⟨hadmS, hadmC, Or.inl rfl, Or.inl rfl,
    C8_amended_only_bucket_changes freshState "k" none "p" "" 0
      invokeConst "jid" hadmS hadmC (Or.inl rfl) (Or.inl rfl)⟩

/-! ### C9: past due times are not rejected -/

/-- C9 as stated is false: a schedule request whose finite `runAt` lies
strictly in the past (0, with now = 100000) and whose prompt is non-empty
is not rejected — it is accepted and executed immediately inline. -/
theorem C9_counterexample_past_due_runs_inline :
    (0 : Int) < 100000 ∧
    (scheduleRequest freshState "k" (some 0) "p" 100000 invokeConst "jid").2
        = ScheduleResp.immediate ∧
    ¬ (scheduleRequest freshState "k" (some 0) "p" 100000 invokeConst "jid").2
        = ScheduleResp.invalid := by
  have h := tokenBucket_empty "k" (((100000 : Int)) : ℚ) 12 20 (by norm_num)
  have hp : ¬ (("p" : String) = "") := by decide
  simp only [scheduleRequest, freshState, h]
  norm_num [hp, MIN_ALARM_MS]
  decide

/-- C9 amended: under an admitted schedule request, validation rejects
exactly the non-finite `runAt` or empty-prompt inputs; every finite
`runAt` with a non-empty prompt less than 30 seconds after now — past
instants included — is executed immediately inline, and every one at or
beyond that horizon is enqueued as a job with the requested due time. -/
theorem C9_amended_validation_and_horizon (s : DOState) (key : String)
    (runAt : Option Int) (prompt : String) (now : Int)
    (invoke : List (String × String) → String) (uuid : String)
    (hadm : (tokenBucket s.buckets key (now : ℚ) 12 20).1 = true) :
    ((scheduleRequest s key runAt prompt now invoke uuid).2 = ScheduleResp.invalid
        ↔ runAt = none ∨ prompt = "") ∧
    (∀ r : Int, runAt = some r → ¬ prompt = "" → r - now < MIN_ALARM_MS →
        (scheduleRequest s key runAt prompt now invoke uuid).2
          = ScheduleResp.immediate) ∧
    (∀ r : Int, runAt = some r → ¬ prompt = "" → ¬ r - now < MIN_ALARM_MS →
        (scheduleRequest s key runAt prompt now invoke uuid).2
          = ScheduleResp.scheduled uuid ∧
        (scheduleRequest s key runAt prompt now invoke uuid).1.jobs
          = s.jobs ++ [{ id := uuid, runAt := r, prompt := prompt }]) := by
  refine ⟨?_, ?_, ?_⟩
  · cases runAt with
    | none => simp [scheduleRequest, hadm]
    | some r =>
      by_cases hp : prompt = ""
      · simp [scheduleRequest, hadm, hp]
      · by_cases hd : r - now < MIN_ALARM_MS
        · simp [scheduleRequest, hadm, hp, hd]
        · simp [scheduleRequest, hadm, hp, hd]
  · intro r hr hp hd
    subst hr
    simp [scheduleRequest, hadm, hp, hd]
  · intro r hr hp hd
    subst hr
    simp [scheduleRequest, hadm, hp, hd, saveHistoryOp_jobs]

/-- Concrete instantiation of the amended C9: on a fresh actor the
admitted request with `runAt = 60000` at `now = 0` satisfies all three
parts (in particular the enqueue branch, since 60000 ≥ 30000). -/
theorem C9_amended_validation_and_horizon_witness :
    (tokenBucket freshState.buckets "k" (((0 : Int)) : ℚ) 12 20).1 = true ∧
    (((scheduleRequest freshState "k" (some 60000) "p" 0 invokeConst "jid").2
        = ScheduleResp.invalid ↔ (some (60000 : Int)) = none ∨ ("p" : String) = "") ∧
    (∀ r : Int, (some (60000 : Int)) = some r → ¬ ("p" : String) = "" →
        r - 0 < MIN_ALARM_MS →
        (scheduleRequest freshState "k" (some 60000) "p" 0 invokeConst "jid").2
          = ScheduleResp.immediate) ∧
    (∀ r : Int, (some (60000 : Int)) = some r → ¬ ("p" : String) = "" →
        ¬ r - 0 < MIN_ALARM_MS →
        (scheduleRequest freshState "k" (some 60000) "p" 0 invokeConst "jid").2
          = ScheduleResp.scheduled "jid" ∧
        (scheduleRequest freshState "k" (some 60000) "p" 0 invokeConst "jid").1.jobs
          = freshState.jobs ++ [{ id := "jid", runAt := r, prompt := "p" }])) := by
  have hadm : (tokenBucket freshState.buckets "k" (((0 : Int)) : ℚ) 12 20).1
      = true := by
    have := tokenBucket_empty "k" (((0 : Int)) : ℚ) 12 20 (by norm_num)
    simpa [freshState] using congrArg Prod.fst this
  exact ⟨hadm, C9_amended_validation_and_horizon freshState "k" (some 60000) "p" 0
    invokeConst "jid" hadm⟩

/-- C5 amended: the firing executes the due jobs in the order they sit in
the queue (insertion order), not sorted by due time — the loop appends
exactly one assistant turn per due job, the i-th turn generated from the
i-th due job's prompt and the history as grown so far, and the due list is
the order-preserving filter (a sublist) of the queue. Equal due times are
thereby processed in insertion order. -/
theorem C5_amended_queue_order (h : List HistoryMessage) (due : List Job)
    (now : Int) (invoke : List (String × String) → String) (jobs : List Job) :
    runDueJobs h due now invoke = h ++ dueTurns h due now invoke ∧
    (dueTurns h due now invoke).length = due.length ∧
    (dueJobs jobs now).Sublist jobs :=
  ⟨runDueJobs_eq_append now invoke due h, dueTurns_length now invoke due h,
    List.filter_sublist jobs⟩

end CfAgent
